import Mathlib

/-!
# Verification of `clean_malloc` (jcdubois/clean_malloc)

Shallow embedding of the two interposition libraries `clean_malloc.c` and
`clean_write.c` in Lean 4, together with theorems about the frozen claims.

Modelling choices:
* `size_t` values are natural numbers; arithmetic that the C code performs
  on `size_t` is taken modulo `W = 2^64` (LP64).
* Pointers are natural numbers; the null pointer is `0`.
* Byte memory is a total map `Nat → Nat`.
* The allocation header (`struct alloc_header`, compiled without
  `CHECK_COOKIE`, its default) is stored field-wise in a separate map keyed
  by the payload address; `headerSize = sizeof(struct alloc_header) = 16`
  on LP64 (two 8-byte fields: `void *ptr; size_t requested_size;`).
* The real (glibc) primitives are external collaborators: each entry point
  takes the value the real primitive returned as an explicit oracle
  parameter, which also captures that the real call happens first.
* C behaviour that is undefined in the source (reading a header behind a
  pointer that was never returned by this allocator, dereferencing a null
  `msghdr`) is modelled by `Option`, with `none` for the undefined case.
-/

/-- Word size of `size_t` on LP64: `2^64`. -/
def W : Nat := 2 ^ 64

/-- `sizeof(struct alloc_header)` without `CHECK_COOKIE`: `void *ptr` (8) +
`size_t requested_size` (8). -/
def headerSize : Nat := 16

/-- `struct alloc_header` (clean_malloc.c lines 82-89, `CHECK_COOKIE` off):
`ptr` is the address the real allocator returned, `requested_size` the size
the caller asked for. -/
structure AllocHeader where
  ptr : Nat
  requested_size : Nat
deriving DecidableEq, Repr

/-- Program state of the allocation interposer: byte memory plus the
allocation headers, keyed by payload address (the header itself sits in the
`headerSize` bytes right before the payload). -/
structure HeapState where
  mem : Nat → Nat
  headers : Nat → Option AllocHeader

/-- `memset(base, 0, len)`: zero the address range `[base, base+len)`. -/
def memsetZero (mem : Nat → Nat) (base len : Nat) : Nat → Nat :=
  fun a => if base ≤ a ∧ a < base + len then 0 else mem a

/-- `memcpy(dst, src, len)` between non-overlapping regions: the bytes
`[dst, dst+len)` are replaced by the corresponding bytes of
`[src, src+len)` read from the pre-state. -/
def memcpyBytes (mem : Nat → Nat) (dst src len : Nat) : Nat → Nat :=
  fun a => if dst ≤ a ∧ a < dst + len then mem (src + (a - dst)) else mem a

/-- Size that `malloc` requests from the real allocator
(clean_malloc.c line 245: `requested_size + sizeof(alloc_header)`,
computed in `size_t`). -/
def mallocUnderlyingSize (size : Nat) : Nat := (size + headerSize) % W

/-- `malloc(size)` (clean_malloc.c lines 238-257). `realRet` is the pointer
the real allocator returned for the request of `mallocUnderlyingSize size`
bytes (`0` = NULL). On success the header is written at the block start and
`blockStart + headerSize` is returned; on failure NULL is returned and
nothing is written. -/
def cleanMalloc (realRet : Nat) (size : Nat) (s : HeapState) : Nat × HeapState :=
  if realRet = 0 then (0, s)
  else
    let payload := realRet + headerSize
    (payload,
      { s with
        headers := fun p =>
          if p = payload then some ⟨realRet, size⟩ else s.headers p })

/-- Size that `calloc` hands to `malloc` (clean_malloc.c line 264:
`size * nmemb`, computed in `size_t`). -/
def callocSize (nmemb size : Nat) : Nat := (size * nmemb) % W

/-- `calloc(nmemb, size)` (clean_malloc.c lines 262-271): `malloc` of the
product, then `memset` the payload to zero when the pointer and the product
are both non-zero. -/
def cleanCalloc (realRet : Nat) (nmemb size : Nat) (s : HeapState) :
    Nat × HeapState :=
  let r := cleanMalloc realRet (callocSize nmemb size) s
  if r.1 ≠ 0 ∧ callocSize nmemb size ≠ 0 then
    (r.1, { r.2 with mem := memsetZero r.2.mem r.1 (callocSize nmemb size) })
  else r

/-- `free(ptr)` (clean_malloc.c lines 277-293). Returns the new state and
the argument passed to the real `free` (`none` when the real `free` is not
called). Reading the header behind a pointer that no allocation entry point
returned is undefined behaviour in the source and yields `none`. -/
def cleanFree (ptr : Nat) (s : HeapState) :
    Option (HeapState × Option Nat) :=
  if ptr = 0 then some (s, none)
  else
    match s.headers ptr with
    | none => none
    | some h =>
        some
          ({ mem := memsetZero s.mem h.ptr ((ptr - h.ptr) + h.requested_size),
             headers := fun p => if p = ptr then none else s.headers p },
           some h.ptr)

/-- `realloc(ptr, size)` (clean_malloc.c lines 295-314): always a fresh
`malloc(size)`; when `ptr` is non-null, copy `MIN(size, requested_size)`
bytes old → new if the fresh allocation succeeded, then `free(ptr)`
unconditionally. Returns the new pointer, the new state and the argument
passed to the real `free`. -/
def cleanRealloc (realRet : Nat) (ptr size : Nat) (s : HeapState) :
    Option (Nat × HeapState × Option Nat) :=
  let r := cleanMalloc realRet size s
  if ptr = 0 then some (r.1, r.2, none)
  else
    match r.2.headers ptr with
    | none => none
    | some h =>
        let s2 :=
          if r.1 ≠ 0 then
            { r.2 with
              mem := memcpyBytes r.2.mem r.1 ptr (min size h.requested_size) }
          else r.2
        match cleanFree ptr s2 with
        | none => none
        | some (s3, freed) => some (r.1, s3, freed)

/-- `EINVAL` from `errno.h` (Linux). The real `posix_memalign` returns this
positive value for invalid arguments. -/
def EINVAL : Int := 22

/-- The header size rounded up to the next multiple of `alignment`
(clean_malloc.c lines 329-332: `(sizeof/alignment + (sizeof%alignment?1:0))
* alignment`, computed in `size_t`). -/
def roundUpHdr (alignment : Nat) : Nat :=
  ((headerSize / alignment + if headerSize % alignment = 0 then 0 else 1) *
    alignment) % W

/-- Size that `posix_memalign` requests from the real primitive
(clean_malloc.c line 333: rounded header size plus requested size, in
`size_t`). -/
def memalignUnderlyingSize (alignment size : Nat) : Nat :=
  (roundUpHdr alignment + size) % W

/-- `posix_memalign(memptr, alignment, size)` (clean_malloc.c lines
316-354). `memptrNull` says whether the caller passed a null `memptr`;
`oldVal` is the prior content of the caller's pointer variable. `realRC`
and `realPtr` are the return code of the real `posix_memalign` and the
block it stored. Result: `(rc, final content of the caller's variable,
new state)`. -/
def cleanPosixMemalign (realRC : Int) (realPtr : Nat) (alignment size : Nat)
    (memptrNull : Bool) (oldVal : Nat) (s : HeapState) :
    Int × Nat × HeapState :=
  if alignment = 0 ∨ memptrNull then (-EINVAL, oldVal, s)
  else
    let allocated := memalignUnderlyingSize alignment size
    if realRC = 0 ∧ realPtr ≠ 0 then
      let payload := realPtr + allocated - size
      (0, payload,
        { s with
          headers := fun p =>
            if p = payload then some ⟨realPtr, size⟩ else s.headers p })
    else (realRC, 0, s)

/-! ## Output interposer (`clean_write.c`) -/

/-- `write(fd, buf, count)` (clean_write.c lines 167-186). `realRet` is the
value the real `write` returned (the real call happens first); `buf` is the
buffer address (`0` = NULL). Returns the captured value and the new
memory. -/
def cleanWrite (realRet : Int) (buf count : Nat) (mem : Nat → Nat) :
    Int × (Nat → Nat) :=
  (realRet, if buf ≠ 0 ∧ count ≠ 0 then memsetZero mem buf count else mem)

/-- `sendto(sockfd, buf, len, flags, dest_addr, addrlen)` (clean_write.c
lines 188-208): the destination arguments are passed through to the real
primitive (already reflected in `realRet`) and do not affect the
scrubbing. -/
def cleanSendto (realRet : Int) (buf len : Nat) (_destAddr _addrlen : Nat)
    (mem : Nat → Nat) : Int × (Nat → Nat) :=
  (realRet, if buf ≠ 0 ∧ len ≠ 0 then memsetZero mem buf len else mem)

/-- `send(sockfd, buf, len, flags)` (clean_write.c lines 227-230):
`sendto` with a null destination. -/
def cleanSend (realRet : Int) (buf len : Nat) (mem : Nat → Nat) :
    Int × (Nat → Nat) :=
  cleanSendto realRet buf len 0 0 mem

/-- `struct msghdr` restricted to the fields `sendmsg` uses: the scatter
list `msg_iov` of `(iov_base, iov_len)` pairs; `msg_iovlen` is its
length. -/
structure Msghdr where
  iov : List (Nat × Nat)

/-- The zeroing loop of `sendmsg` (clean_write.c lines 216-220):
`while (count) { count--; memset(iov[count].iov_base, 0,
iov[count].iov_len); }` — indices processed in decreasing order. -/
def sendmsgLoop (iov : List (Nat × Nat)) : Nat → (Nat → Nat) → (Nat → Nat)
  | 0, mem => mem
  | count + 1, mem =>
      sendmsgLoop iov count
        (memsetZero mem (iov.getD count (0, 0)).1 (iov.getD count (0, 0)).2)

/-- Conversion of a `size_t` value to a 32-bit `int` as gcc/clang do it
(truncate modulo `2^32`, reinterpret in two's complement). Models the
truncating initializer `int count = msg->msg_iovlen` at clean_write.c
line 213. -/
def intOfSizeT (n : Nat) : Int :=
  if n % 2 ^ 32 < 2 ^ 31 then (n % 2 ^ 32 : Int)
  else (n % 2 ^ 32 : Int) - 2 ^ 32

/-- `sendmsg(sockfd, msg, flags)` (clean_write.c lines 210-225). The real
primitive is called first (`realRet`); then `msg->msg_iovlen` is read
*before* the null test on `msg`, so a null `msg` is a null dereference
(`none`). The count is `msg_iovlen` truncated from `size_t` to a 32-bit
`int`; a negative truncated count makes the loop index `msg_iov` at a
negative offset (undefined, `none`); otherwise the first `count` segments
are zeroed, last to first. -/
def cleanSendmsg (realRet : Int) (msg : Option Msghdr) (mem : Nat → Nat) :
    Option (Int × (Nat → Nat)) :=
  match msg with
  | none => none
  | some m =>
      let count := intOfSizeT m.iov.length
      if count < 0 then none
      else some (realRet, sendmsgLoop m.iov count.toNat mem)

/-! ## Traces of allocator operations (for the header invariant) -/

/-- One call to an entry point of the allocation interposer, together with
the values the real primitives returned during that call. -/
inductive HeapOp where
  | mallocOp (realRet size : Nat)
  | callocOp (realRet nmemb size : Nat)
  | freeOp (ptr : Nat)
  | reallocOp (realRet ptr size : Nat)
  | memalignOp (realRC : Int) (realPtr alignment size oldVal : Nat)
      (memptrNull : Bool)

/-- Effect of one entry-point call on the heap state (`none` on undefined
behaviour). -/
def runOp : HeapOp → HeapState → Option HeapState
  | .mallocOp r sz, s => some (cleanMalloc r sz s).2
  | .callocOp r n k, s => some (cleanCalloc r n k s).2
  | .freeOp p, s => (cleanFree p s).map (fun t => t.1)
  | .reallocOp r p sz, s => (cleanRealloc r p sz s).map (fun t => t.2.1)
  | .memalignOp rc rp a sz ov nul, s =>
      some (cleanPosixMemalign rc rp a sz nul ov s).2.2

/-- Run a sequence of entry-point calls from a given state. -/
def runOps : List HeapOp → HeapState → Option HeapState
  | [], s => some s
  | op :: rest, s =>
      match runOp op s with
      | none => none
      | some s' => runOps rest s'

/-- The heap before any allocation: no live headers. -/
def initHeap : HeapState := { mem := fun _ => 0, headers := fun _ => none }

/-- Header invariant: every live header has a non-null `underlyingPointer`. -/
def HeapInv (s : HeapState) : Prop :=
  ∀ p h, s.headers p = some h → h.ptr ≠ 0

/-- A concrete state with one live allocation: payload at 116, real block
at 100, requested size 8, every byte of memory holding 42. -/
def exLiveState : HeapState :=
  { mem := fun _ => 42,
    headers := fun p => if p = 116 then some ⟨100, 8⟩ else none }

/-! ## Basic lemmas about the byte-memory primitives -/

theorem memsetZero_inside {mem : Nat → Nat} {base len a : Nat}
    (h1 : base ≤ a) (h2 : a < base + len) : memsetZero mem base len a = 0 := by
  simp [memsetZero, h1, h2]

theorem memsetZero_outside {mem : Nat → Nat} {base len a : Nat}
    (h : ¬(base ≤ a ∧ a < base + len)) : memsetZero mem base len a = mem a := by
  simp [memsetZero, h]

theorem memcpyBytes_inside {mem : Nat → Nat} {dst src len a : Nat}
    (h1 : dst ≤ a) (h2 : a < dst + len) :
    memcpyBytes mem dst src len a = mem (src + (a - dst)) := by
  simp [memcpyBytes, h1, h2]

theorem memcpyBytes_outside {mem : Nat → Nat} {dst src len a : Nat}
    (h : ¬(dst ≤ a ∧ a < dst + len)) : memcpyBytes mem dst src len a = mem a := by
  simp [memcpyBytes, h]

/-! ## Lemmas about the `sendmsg` zeroing loop -/

theorem sendmsgLoop_zero_or_same (iov : List (Nat × Nat)) :
    ∀ (n : Nat) (mem : Nat → Nat) (a : Nat),
      sendmsgLoop iov n mem a = 0 ∨ sendmsgLoop iov n mem a = mem a := by
  intro n
  induction n with
  | zero => intro mem a; right; rfl
  | succ k ih =>
      intro mem a
      have hstep : sendmsgLoop iov (k + 1) mem =
          sendmsgLoop iov k
            (memsetZero mem (iov.getD k (0, 0)).1 (iov.getD k (0, 0)).2) := rfl
      rw [hstep]
      rcases ih (memsetZero mem (iov.getD k (0, 0)).1 (iov.getD k (0, 0)).2) a
        with h | h
      · exact Or.inl h
      · rw [h]
        by_cases hc : (iov.getD k (0, 0)).1 ≤ a ∧
            a < (iov.getD k (0, 0)).1 + (iov.getD k (0, 0)).2
        · exact Or.inl (memsetZero_inside hc.1 hc.2)
        · exact Or.inr (memsetZero_outside hc)

theorem sendmsgLoop_covered (iov : List (Nat × Nat)) :
    ∀ (n : Nat) (mem : Nat → Nat) (a : Nat),
      (∃ i, i < n ∧ (iov.getD i (0, 0)).1 ≤ a ∧
        a < (iov.getD i (0, 0)).1 + (iov.getD i (0, 0)).2) →
      sendmsgLoop iov n mem a = 0 := by
  intro n
  induction n with
  | zero => intro mem a ⟨i, hi, _⟩; exact absurd hi (Nat.not_lt_zero i)
  | succ k ih =>
      intro mem a ⟨i, hi, h1, h2⟩
      have hstep : sendmsgLoop iov (k + 1) mem =
          sendmsgLoop iov k
            (memsetZero mem (iov.getD k (0, 0)).1 (iov.getD k (0, 0)).2) := rfl
      rw [hstep]
      rcases Nat.lt_succ_iff_lt_or_eq.mp hi with hik | hik
      · exact ih _ a ⟨i, hik, h1, h2⟩
      · subst hik
        rcases sendmsgLoop_zero_or_same iov i
            (memsetZero mem (iov.getD i (0, 0)).1 (iov.getD i (0, 0)).2) a
          with h | h
        · exact h
        · rw [h]; exact memsetZero_inside h1 h2

theorem sendmsgLoop_eq_foldl (iov : List (Nat × Nat)) :
    ∀ (n : Nat) (mem : Nat → Nat), n ≤ iov.length →
      sendmsgLoop iov n mem =
        ((iov.take n).reverse).foldl
          (fun m p => memsetZero m p.1 p.2) mem := by
  intro n
  induction n with
  | zero => intro mem _; rfl
  | succ k ih =>
      intro mem h
      have hk : k < iov.length := h
      have hstep : sendmsgLoop iov (k + 1) mem =
          sendmsgLoop iov k
            (memsetZero mem (iov.getD k (0, 0)).1 (iov.getD k (0, 0)).2) := rfl
      rw [hstep, ih _ (Nat.le_of_lt hk)]
      have htake : iov.take (k + 1) = iov.take k ++ [iov[k]] := by
        rw [List.take_succ, List.getElem?_eq_getElem hk]
        rfl
      have hgetD : iov.getD k (0, 0) = iov[k] := List.getD_eq_getElem iov (0, 0) hk
      rw [htake, List.reverse_append, List.reverse_singleton, hgetD]
      rfl

/-- C3: `write` (and `sendto`) delegates to the real primitive first and
returns exactly its captured return value; on return, a non-null buffer
with non-zero length is fully zeroed (whatever the real primitive's return
value was), while a null buffer or zero length leaves memory untouched. -/
theorem write_sendto_delegate_and_scrub :
    (∀ (realRet : Int) (buf count : Nat) (mem : Nat → Nat),
      (cleanWrite realRet buf count mem).1 = realRet ∧
      (buf ≠ 0 → count ≠ 0 → ∀ a, buf ≤ a → a < buf + count →
        (cleanWrite realRet buf count mem).2 a = 0) ∧
      (buf = 0 ∨ count = 0 → (cleanWrite realRet buf count mem).2 = mem)) ∧
    (∀ (realRet : Int) (buf len dAddr aLen : Nat) (mem : Nat → Nat),
      (cleanSendto realRet buf len dAddr aLen mem).1 = realRet ∧
      (buf ≠ 0 → len ≠ 0 → ∀ a, buf ≤ a → a < buf + len →
        (cleanSendto realRet buf len dAddr aLen mem).2 a = 0) ∧
      (buf = 0 ∨ len = 0 → (cleanSendto realRet buf len dAddr aLen mem).2 = mem)) := by
  constructor
  · intro realRet buf count mem
    refine ⟨rfl, ?_, ?_⟩
    · intro hb hc a h1 h2
      show (if buf ≠ 0 ∧ count ≠ 0 then memsetZero mem buf count else mem) a = 0
      rw [if_pos ⟨hb, hc⟩]
      exact memsetZero_inside h1 h2
    · intro h
      show (if buf ≠ 0 ∧ count ≠ 0 then memsetZero mem buf count else mem) = mem
      rcases h with h | h <;> simp [h]
  · intro realRet buf len dAddr aLen mem
    refine ⟨rfl, ?_, ?_⟩
    · intro hb hc a h1 h2
      show (if buf ≠ 0 ∧ len ≠ 0 then memsetZero mem buf len else mem) a = 0
      rw [if_pos ⟨hb, hc⟩]
      exact memsetZero_inside h1 h2
    · intro h
      show (if buf ≠ 0 ∧ len ≠ 0 then memsetZero mem buf len else mem) = mem
      rcases h with h | h <;> simp [h]

/-- Witness for C3 at concrete inputs: a failed real `write` (return −7)
still zeros the 3-byte buffer at 10, a null buffer leaves memory unchanged,
and the captured return value is passed through. -/
theorem write_sendto_delegate_and_scrub_witness :
    (cleanWrite (-7) 10 3 (fun _ => 9)).1 = -7 ∧
    (cleanWrite (-7) 10 3 (fun _ => 9)).2 12 = 0 ∧
    (cleanWrite (-7) 0 3 (fun _ => 9)).2 = (fun _ => 9) ∧
    (cleanSendto (-7) 10 3 4 4 (fun _ => 9)).2 11 = 0 :=
  ⟨(write_sendto_delegate_and_scrub.1 (-7) 10 3 (fun _ => 9)).1,
   (write_sendto_delegate_and_scrub.1 (-7) 10 3 (fun _ => 9)).2.1
     (by decide) (by decide) 12 (by decide) (by decide),
   (write_sendto_delegate_and_scrub.1 (-7) 0 3 (fun _ => 9)).2.2 (Or.inl rfl),
   (write_sendto_delegate_and_scrub.2 (-7) 10 3 4 4 (fun _ => 9)).2.1
     (by decide) (by decide) 11 (by decide) (by decide)⟩

/-- Helper: the `size_t` → `int` truncation is the identity below `2^31`. -/
theorem intOfSizeT_small (n : Nat) (h : n < 2 ^ 31) :
    intOfSizeT n = (n : Int) := by
  unfold intOfSizeT
  have h1 : n % 2 ^ 32 = n := Nat.mod_eq_of_lt (lt_trans h (by norm_num))
  rw [h1, if_pos h]
  exact Int.emod_eq_of_lt (Int.natCast_nonneg n)
    (by exact_mod_cast lt_trans h (by norm_num : (2:Nat) ^ 31 < 2 ^ 32))

/-- Helper: on a segment list shorter than `2^31` the truncated count is
the list length and `sendmsg` zeros every segment. -/
theorem cleanSendmsg_eval_small (realRet : Int) (mem : Nat → Nat)
    (iov : List (Nat × Nat)) (h : iov.length < 2 ^ 31) :
    cleanSendmsg realRet (some ⟨iov⟩) mem =
      some (realRet, sendmsgLoop iov iov.length mem) := by
  simp only [cleanSendmsg]
  rw [intOfSizeT_small iov.length h]
  rw [if_neg (not_lt.mpr (Int.natCast_nonneg _))]
  rw [Int.toNat_natCast]

/-- Counterexample for C10 as stated: `int count = msg->msg_iovlen`
(clean_write.c:213) truncates the `size_t` segment count to a 32-bit
`int`, so a message with `2^32` segments gets count 0 and *no* segment is
zeroed — byte 10 of the (non-empty) segment `(10, 5)` still reads 9 after
the call. -/
theorem sendmsg_iovlen_truncation_counterexample :
    intOfSizeT (2 ^ 32) = 0 ∧
    (cleanSendmsg (-1) (some ⟨List.replicate (2 ^ 32) (10, 5)⟩)
        (fun _ => 9)).map (fun o => o.2 10) = some 9 ∧
    (9 : Nat) ≠ 0 ∧
    ((10 : Nat), (5 : Nat)) ∈ List.replicate (2 ^ 32) ((10 : Nat), (5 : Nat)) := by
  have h0 : intOfSizeT (2 ^ 32) = 0 := by decide
  refine ⟨h0, ?_, by decide, ?_⟩
  · have heval : cleanSendmsg (-1)
        (some ⟨List.replicate (2 ^ 32) ((10 : Nat), (5 : Nat))⟩)
        (fun _ => 9) = some (-1, fun _ => 9) := by
      simp only [cleanSendmsg]
      rw [List.length_replicate, h0]
      rw [if_neg (by decide)]
      rfl
    rw [heval]
    rfl
  · rw [List.mem_replicate]
    exact ⟨by decide, rfl⟩

/-- C10 (amended): `sendmsg` reads `msg->msg_iovlen` before the null test
on `msg`, so a null message is a null dereference (undefined, `none`),
never the skipped branch; the segment count is `msg_iovlen` truncated to a
32-bit `int` — a negative truncated count is undefined, and for a list
shorter than `2^31` the real primitive's return value is passed through
whatever its sign, the segments are zeroed by iterating the list in
reverse order, every byte of every segment reads zero afterwards, and an
empty segment list leaves memory untouched. -/
theorem sendmsg_null_deref_and_reverse_scrub :
    (∀ (realRet : Int) (mem : Nat → Nat),
      cleanSendmsg realRet none mem = none) ∧
    (∀ (realRet : Int) (mem : Nat → Nat),
      cleanSendmsg realRet (some ⟨[]⟩) mem = some (realRet, mem)) ∧
    (∀ (realRet : Int) (mem : Nat → Nat) (iov : List (Nat × Nat)),
      iov.length < 2 ^ 31 →
      cleanSendmsg realRet (some ⟨iov⟩) mem =
        some (realRet,
          (iov.reverse).foldl (fun m p => memsetZero m p.1 p.2) mem)) ∧
    (∀ (realRet : Int) (mem : Nat → Nat) (iov : List (Nat × Nat)) (b l : Nat),
      iov.length < 2 ^ 31 → (b, l) ∈ iov → ∀ a, b ≤ a → a < b + l →
      (cleanSendmsg realRet (some ⟨iov⟩) mem).map (fun o => o.2 a) =
        some 0) ∧
    (∀ (realRet : Int) (mem : Nat → Nat) (iov : List (Nat × Nat)),
      intOfSizeT iov.length < 0 →
      cleanSendmsg realRet (some ⟨iov⟩) mem = none) := by
  refine ⟨fun _ _ => rfl, fun _ _ => rfl, ?_, ?_, ?_⟩
  · intro realRet mem iov hlen
    rw [cleanSendmsg_eval_small realRet mem iov hlen]
    rw [sendmsgLoop_eq_foldl iov iov.length mem (Nat.le_refl _),
      List.take_length]
  · intro realRet mem iov b l hlen hmem a h1 h2
    rw [cleanSendmsg_eval_small realRet mem iov hlen]
    show some (sendmsgLoop iov iov.length mem a) = some 0
    rcases List.getElem_of_mem hmem with ⟨i, hi, hget⟩
    have hD : iov.getD i (0, 0) = (b, l) := by
      rw [List.getD_eq_getElem iov (0, 0) hi, hget]
    refine congrArg some (sendmsgLoop_covered iov iov.length mem a ⟨i, hi, ?_, ?_⟩)
    · rw [hD]; exact h1
    · rw [hD]; exact h2
  · intro realRet mem iov hneg
    simp only [cleanSendmsg]
    rw [if_pos hneg]

/-- Witness for C10 at concrete inputs: two segments `(10,2)` and `(20,3)`
(count 2 survives the `int` truncation), real `sendmsg` failing with −1:
byte 21 of the second segment is zeroed. -/
theorem sendmsg_null_deref_and_reverse_scrub_witness :
    (cleanSendmsg (-1) (some ⟨[(10, 2), (20, 3)]⟩) (fun _ => 9)).map
      (fun o => o.2 21) = some 0 :=
  sendmsg_null_deref_and_reverse_scrub.2.2.2.1 (-1) (fun _ => 9)
    [(10, 2), (20, 3)] 20 3 (by decide) (by decide) 21 (by decide) (by decide)

/-- Helper: `calloc` returns the same pointer as the inner `malloc`. -/
theorem cleanCalloc_fst (realRet n k : Nat) (s : HeapState) :
    (cleanCalloc realRet n k s).1 =
      (cleanMalloc realRet (callocSize n k) s).1 := by
  simp only [cleanCalloc]
  split
  · rfl
  · rfl

/-- C2: `free` is a no-op on null (no zeroing, no call to the real
`free`); on a pointer with a live header it zeros the whole span from the
header's `underlyingPointer` over `(payload − underlyingPointer) +
requestedSize` bytes and hands `underlyingPointer` to the real `free`. -/
theorem free_scrubs_block :
    (∀ s : HeapState, cleanFree 0 s = some (s, none)) ∧
    (∀ (s : HeapState) (p : Nat) (h : AllocHeader), p ≠ 0 →
      s.headers p = some h →
      ∃ s', cleanFree p s = some (s', some h.ptr) ∧
        ∀ a, h.ptr ≤ a → a < h.ptr + ((p - h.ptr) + h.requested_size) →
          s'.mem a = 0) := by
  constructor
  · intro s; rfl
  · intro s p h hp hh
    have heq : cleanFree p s =
        some ({ mem := memsetZero s.mem h.ptr ((p - h.ptr) + h.requested_size),
                headers := fun q => if q = p then none else s.headers q },
              some h.ptr) := by
      unfold cleanFree
      rw [if_neg hp, hh]
    exact ⟨_, heq, fun a h1 h2 => memsetZero_inside h1 h2⟩

/-- Witness for C2: freeing the live payload 116 of `exLiveState`
(real block 100, requested size 8) zeros the 24-byte span and passes 100
to the real `free`. -/
theorem free_scrubs_block_witness :
    cleanFree 0 exLiveState = some (exLiveState, none) ∧
    ∃ s', cleanFree 116 exLiveState = some (s', some 100) ∧
      ∀ a, 100 ≤ a → a < 100 + ((116 - 100) + 8) → s'.mem a = 0 :=
  ⟨free_scrubs_block.1 exLiveState,
   free_scrubs_block.2 exLiveState 116 ⟨100, 8⟩ (by decide) rfl⟩

/-- Counterexample for C6 as stated: with `alignment = 0` the entry point
returns `-EINVAL` (= −22), which is not the positive `EINVAL` (= 22) the
real `posix_memalign` returns for invalid arguments. -/
theorem posix_memalign_einval_sign_counterexample :
    (cleanPosixMemalign 0 999 0 16 false 5 initHeap).1 = -22 ∧
    EINVAL = 22 ∧
    (cleanPosixMemalign 0 999 0 16 false 5 initHeap).1 ≠ EINVAL ∧
    (cleanPosixMemalign 0 999 0 16 false 5 initHeap).2.1 = 5 := by
  refine ⟨rfl, rfl, ?_, rfl⟩
  decide

/-- C6 (amended): with `alignment = 0` or a null output-pointer argument,
the call fails with the *negated* invalid-argument code `-EINVAL` (not the
positive `EINVAL` of the real primitive), and the caller's output pointer
variable and the heap are left untouched. -/
theorem posix_memalign_invalid_args :
    ∀ (realRC : Int) (realPtr alignment size oldVal : Nat) (s : HeapState)
      (memptrNull : Bool),
      alignment = 0 ∨ memptrNull = true →
      cleanPosixMemalign realRC realPtr alignment size memptrNull oldVal s =
        (-EINVAL, oldVal, s) := by
  intro realRC realPtr alignment size oldVal s memptrNull h
  unfold cleanPosixMemalign
  rw [if_pos h]

/-- Witness for C6 (amended) at `alignment = 0`, prior variable value 5. -/
theorem posix_memalign_invalid_args_witness :
    cleanPosixMemalign 7 999 0 32 false 5 initHeap = (-EINVAL, 5, initHeap) :=
  posix_memalign_invalid_args 7 999 0 32 5 initHeap false (Or.inl rfl)

/-- Counterexample for C4 as stated: for `nmemb = size = 2^32` the product
wraps modulo `2^64`, so `calloc` delegates with size 0, not with
`n * k = 2^64`. -/
theorem calloc_product_wraps_counterexample :
    callocSize (2 ^ 32) (2 ^ 32) = 0 ∧
    callocSize (2 ^ 32) (2 ^ 32) ≠ 2 ^ 32 * 2 ^ 32 ∧
    (cleanCalloc 40 (2 ^ 32) (2 ^ 32) initHeap).1 =
      (cleanMalloc 40 0 initHeap).1 := by
  refine ⟨by decide, by decide, ?_⟩
  rw [cleanCalloc_fst]
  rfl

/-- C4 (amended): for all `n, k` with `n·k < 2^64` (degenerate cases
`n = 0` or `k = 0` included), `calloc` delegates to `malloc` with size
`n·k` and, when the returned pointer is non-null, every one of the `n·k`
payload bytes reads as zero; for wrapping pairs the delegated size is
`(n·k) mod 2^64` instead. -/
theorem calloc_delegates_and_zeroes :
    ∀ (n k realRet : Nat) (s : HeapState), n * k < W →
      callocSize n k = n * k ∧
      (cleanCalloc realRet n k s).1 = (cleanMalloc realRet (n * k) s).1 ∧
      (∀ a, (cleanCalloc realRet n k s).1 ≠ 0 →
        (cleanCalloc realRet n k s).1 ≤ a →
        a < (cleanCalloc realRet n k s).1 + n * k →
        (cleanCalloc realRet n k s).2.mem a = 0) := by
  intro n k realRet s hlt
  have hprod : callocSize n k = n * k := by
    unfold callocSize
    rw [Nat.mul_comm k n]
    exact Nat.mod_eq_of_lt hlt
  refine ⟨hprod, ?_, ?_⟩
  · rw [cleanCalloc_fst, hprod]
  · intro a hne hle hlt2
    by_cases h0 : n * k = 0
    · rw [h0, Nat.add_zero] at hlt2
      exact absurd (Nat.lt_of_le_of_lt hle hlt2) (Nat.lt_irrefl _)
    · have hne' : (cleanMalloc realRet (callocSize n k) s).1 ≠ 0 := by
        rw [← cleanCalloc_fst]; exact hne
      have hc : (cleanMalloc realRet (callocSize n k) s).1 ≠ 0 ∧
          callocSize n k ≠ 0 := ⟨hne', by rw [hprod]; exact h0⟩
      have hfst : (cleanCalloc realRet n k s).1 =
          (cleanMalloc realRet (callocSize n k) s).1 := cleanCalloc_fst _ _ _ _
      have hmem : (cleanCalloc realRet n k s).2.mem =
          memsetZero (cleanMalloc realRet (callocSize n k) s).2.mem
            (cleanMalloc realRet (callocSize n k) s).1 (callocSize n k) := by
        simp only [cleanCalloc]
        rw [if_pos hc]
      rw [hmem]
      rw [hfst] at hle hlt2
      rw [hprod] at *
      exact memsetZero_inside hle hlt2

/-- Witness for C4 (amended) at `n = 2, k = 3`, real block at 100: the
payload 116 is returned and its 6 bytes are zero. -/
theorem calloc_delegates_and_zeroes_witness :
    callocSize 2 3 = 2 * 3 ∧
    (cleanCalloc 100 2 3 exLiveState).1 = (cleanMalloc 100 (2 * 3) exLiveState).1 ∧
    (cleanCalloc 100 2 3 exLiveState).2.mem 120 = 0 := by
  have h := calloc_delegates_and_zeroes 2 3 100 exLiveState (by decide)
  exact ⟨h.1, h.2.1, h.2.2 120 (by decide) (by decide) (by decide)⟩

/-- C9: the size arithmetic wraps modulo `2^64` with no overflow check:
`malloc` requests `(s + headerSize) mod 2^64` bytes from the real
allocator (strictly fewer than `s` when the sum overflows) while still
recording `requestedSize = s` in the header, and `calloc` delegates with
`(n·k) mod 2^64`, so an overflowing pair still yields a (far too small)
block instead of a failure. -/
theorem size_arithmetic_wraps :
    (∀ sz : Nat, mallocUnderlyingSize sz = (sz + headerSize) % W) ∧
    (∀ sz : Nat, sz < W → W ≤ sz + headerSize → mallocUnderlyingSize sz < sz) ∧
    (∀ (sz realRet : Nat) (s : HeapState), realRet ≠ 0 →
      (cleanMalloc realRet sz s).2.headers (realRet + headerSize) =
        some ⟨realRet, sz⟩) ∧
    (∀ n k : Nat, callocSize n k = (n * k) % W) ∧
    (∀ n k : Nat, W ≤ n * k → callocSize n k < n * k) ∧
    (∀ (n k realRet : Nat) (s : HeapState), realRet ≠ 0 →
      (cleanCalloc realRet n k s).1 = realRet + headerSize) := by
  have hW : W = 18446744073709551616 := by norm_num [W]
  refine ⟨fun _ => rfl, ?_, ?_, ?_, ?_, ?_⟩
  · intro sz h1 h2
    simp only [mallocUnderlyingSize, headerSize] at *
    rw [hW] at *
    omega
  · intro sz realRet s hne
    simp [cleanMalloc, hne]
  · intro n k
    unfold callocSize
    rw [Nat.mul_comm]
  · intro n k h
    have h1 : callocSize n k < W := by
      unfold callocSize
      exact Nat.mod_lt _ (by rw [hW]; omega)
    exact Nat.lt_of_lt_of_le h1 h
  · intro n k realRet s hne
    rw [cleanCalloc_fst]
    simp [cleanMalloc, hne]

/-- Witness for C9: at `s = 2^64 − 1` the underlying request wraps below
the requested size; at `n = k = 2^32` the delegated `calloc` size (0) is
below the true product, yet a non-null payload is produced. -/
theorem size_arithmetic_wraps_witness :
    mallocUnderlyingSize (2 ^ 64 - 1) < 2 ^ 64 - 1 ∧
    callocSize (2 ^ 32) (2 ^ 32) < 2 ^ 32 * 2 ^ 32 ∧
    (cleanCalloc 40 (2 ^ 32) (2 ^ 32) initHeap).1 = 40 + headerSize :=
  ⟨size_arithmetic_wraps.2.1 (2 ^ 64 - 1) (by decide) (by decide),
   size_arithmetic_wraps.2.2.2.2.1 (2 ^ 32) (2 ^ 32) (by decide),
   size_arithmetic_wraps.2.2.2.2.2 (2 ^ 32) (2 ^ 32) 40 initHeap (by decide)⟩

/-- C1 evaluated at the failing input: a live allocation (payload 116,
real block 100, requested size 8, bytes 42) reallocated to 50 bytes while
the fresh real `malloc` returns NULL. The code returns NULL *and* zeros
the old block and passes it to the real `free` — the old pointer does not
survive, contrary to the claim. -/
theorem realloc_failure_scrubs_and_frees_old :
    (cleanRealloc 0 116 50 exLiveState).map (fun t => t.1) = some 0 ∧
    (cleanRealloc 0 116 50 exLiveState).map (fun t => t.2.2) = some (some 100) ∧
    (cleanRealloc 0 116 50 exLiveState).map (fun t => t.2.1.mem 116) = some 0 ∧
    (cleanRealloc 0 116 50 exLiveState).map (fun t => t.2.1.mem 100) = some 0 ∧
    (cleanRealloc 0 116 50 exLiveState).map
      (fun t => (t.2.1.headers 116).isNone) = some true ∧
    exLiveState.mem 116 = 42 ∧ exLiveState.mem 100 = 42 := by
  refine ⟨?_, ?_, ?_, ?_, ?_, rfl, rfl⟩ <;> decide

/-- Helper: evaluation of a successful `malloc`. -/
theorem cleanMalloc_eval (r sz : Nat) (s : HeapState) (hr : r ≠ 0) :
    cleanMalloc r sz s =
      (r + headerSize,
       { s with headers := fun q =>
          if q = r + headerSize then some ⟨r, sz⟩ else s.headers q }) := by
  unfold cleanMalloc
  rw [if_neg hr]

/-- Helper: `malloc` never changes byte memory (the header lives in the
separate header map). -/
theorem cleanMalloc_mem (r sz : Nat) (s : HeapState) :
    (cleanMalloc r sz s).2.mem = s.mem := by
  unfold cleanMalloc
  split
  · rfl
  · rfl

/-- Helper: `malloc` leaves every other header entry unchanged. -/
theorem cleanMalloc_headers_other (r sz q : Nat) (s : HeapState)
    (hq : q ≠ r + headerSize) :
    (cleanMalloc r sz s).2.headers q = s.headers q := by
  by_cases hr : r = 0
  · unfold cleanMalloc
    rw [if_pos hr]
  · rw [cleanMalloc_eval r sz s hr]
    show (if q = r + headerSize then some (⟨r, sz⟩ : AllocHeader)
      else s.headers q) = s.headers q
    rw [if_neg hq]

/-- Helper: evaluation of `free` on a pointer with a live header. -/
theorem cleanFree_eval (p : Nat) (s : HeapState) (h : AllocHeader)
    (hp : p ≠ 0) (hh : s.headers p = some h) :
    cleanFree p s =
      some ({ mem := memsetZero s.mem h.ptr ((p - h.ptr) + h.requested_size),
              headers := fun q => if q = p then none else s.headers q },
            some h.ptr) := by
  unfold cleanFree
  rw [if_neg hp, hh]

/-- Helper: evaluation of `realloc` when the old pointer is live, the
fresh allocation succeeds and the fresh payload is not the old payload. -/
theorem cleanRealloc_eval_success (r p sz : Nat) (s : HeapState)
    (h : AllocHeader) (hr : r ≠ 0) (hp : p ≠ 0)
    (hnp : r + headerSize ≠ p) (hh : s.headers p = some h) :
    cleanRealloc r p sz s =
      some (r + headerSize,
        { mem := memsetZero
            (memcpyBytes s.mem (r + headerSize) p (min sz h.requested_size))
            h.ptr ((p - h.ptr) + h.requested_size),
          headers := fun q =>
            if q = p then none
            else if q = r + headerSize then some ⟨r, sz⟩ else s.headers q },
        some h.ptr) := by
  have hm := cleanMalloc_eval r sz s hr
  have h16 : r + headerSize ≠ 0 := by unfold headerSize; omega
  have hif : (if p = r + headerSize then some (⟨r, sz⟩ : AllocHeader)
      else s.headers p) = some h := by
    rw [if_neg (Ne.symm hnp)]
    exact hh
  have hfree := cleanFree_eval p
      { mem := memcpyBytes s.mem (r + headerSize) p (min sz h.requested_size),
        headers := fun q =>
          if q = r + headerSize then some ⟨r, sz⟩ else s.headers q }
      h hp hif
  simp only [cleanRealloc, hm]
  rw [if_neg hp]
  rw [hif]
  simp [h16, hfree]

/-- C7: successful reallocation copies exactly the first
`min(newSize, oldRequestedSize)` bytes of the old payload to the new
payload (assuming the real allocator handed back a block disjoint from the
old one, as a real allocator does), and reallocation of a null pointer is
a plain allocation with no call to the real `free`. -/
theorem realloc_preserves_prefix :
    (∀ (realRet sz : Nat) (s : HeapState),
      cleanRealloc realRet 0 sz s =
        some ((cleanMalloc realRet sz s).1, (cleanMalloc realRet sz s).2,
          none)) ∧
    (∀ (realRet optr sz : Nat) (s : HeapState) (h : AllocHeader),
      optr ≠ 0 → s.headers optr = some h → realRet ≠ 0 →
      realRet + headerSize ≠ optr →
      (∀ i, i < min sz h.requested_size →
        ¬(h.ptr ≤ realRet + headerSize + i ∧
          realRet + headerSize + i <
            h.ptr + ((optr - h.ptr) + h.requested_size))) →
      ∃ s', cleanRealloc realRet optr sz s =
          some (realRet + headerSize, s', some h.ptr) ∧
        ∀ i, i < min sz h.requested_size →
          s'.mem (realRet + headerSize + i) = s.mem (optr + i)) := by
  constructor
  · intro realRet sz s
    rfl
  · intro r optr sz s h hoptr hh hr hnp hdisj
    refine ⟨_, cleanRealloc_eval_success r optr sz s h hr hoptr hnp hh, ?_⟩
    intro i hi
    show memsetZero
        (memcpyBytes s.mem (r + headerSize) optr (min sz h.requested_size))
        h.ptr ((optr - h.ptr) + h.requested_size) (r + headerSize + i) =
      s.mem (optr + i)
    rw [memsetZero_outside (hdisj i hi)]
    rw [memcpyBytes_inside (Nat.le_add_right _ _) (by omega)]
    congr 1
    omega

/-- Witness for C7: old payload 116 (real block 100, requested size 8)
reallocated to 4 bytes with a fresh real block at 200: the first
`min 4 8 = 4` bytes move to the new payload 216 and the real `free`
receives 100. -/
theorem realloc_preserves_prefix_witness :
    ∃ s', cleanRealloc 200 116 4 exLiveState =
        some (200 + headerSize, s', some 100) ∧
      ∀ i, i < min 4 8 →
        s'.mem (200 + headerSize + i) = exLiveState.mem (116 + i) :=
  realloc_preserves_prefix.2 200 116 4 exLiveState ⟨100, 8⟩ (by decide) rfl
    (by decide) (by decide) (by decide)

/-- Helper: characterisation of the rounded-up header size of
`posix_memalign` for a power-of-two alignment below `2^64`: it is the
least multiple of the alignment that is at least `headerSize`. -/
theorem roundUpHdr_spec (a : Nat) (h0 : 0 < a) (haW : a < W)
    (hk : ∃ k, a = 2 ^ k) :
    headerSize ≤ roundUpHdr a ∧
    roundUpHdr a < headerSize + a ∧
    a ∣ roundUpHdr a := by
  obtain ⟨k, hak⟩ := hk
  have ha63 : a ≤ 2 ^ 63 := by
    subst hak
    have hk64 : k < 64 := by
      by_contra hc
      push_neg at hc
      have hge : (2:Nat) ^ 64 ≤ 2 ^ k := Nat.pow_le_pow_right (by omega) hc
      have hWe : W = 2 ^ 64 := rfl
      rw [hWe] at haW
      omega
    exact Nat.pow_le_pow_right (by omega) (by omega)
  have hrawle : (headerSize / a + if headerSize % a = 0 then 0 else 1) * a ≤
      headerSize + a := by
    by_cases hm : headerSize % a = 0
    · rw [if_pos hm, Nat.add_zero]
      exact Nat.le_trans (Nat.div_mul_le_self _ _) (Nat.le_add_right _ _)
    · rw [if_neg hm, Nat.add_mul, Nat.one_mul]
      exact Nat.add_le_add_right (Nat.div_mul_le_self _ _) a
  have hrawW : (headerSize / a + if headerSize % a = 0 then 0 else 1) * a <
      W := by
    have h2 : headerSize + 2 ^ 63 < W := by norm_num [headerSize, W]
    omega
  have hval : roundUpHdr a =
      (headerSize / a + if headerSize % a = 0 then 0 else 1) * a := by
    unfold roundUpHdr
    exact Nat.mod_eq_of_lt hrawW
  refine ⟨?_, ?_, ?_⟩
  · rw [hval]
    by_cases hm : headerSize % a = 0
    · rw [if_pos hm, Nat.add_zero]
      rw [Nat.div_mul_cancel (Nat.dvd_of_mod_eq_zero hm)]
    · rw [if_neg hm, Nat.add_mul, Nat.one_mul]
      have hma : headerSize % a < a := Nat.mod_lt _ h0
      calc headerSize = a * (headerSize / a) + headerSize % a :=
            (Nat.div_add_mod headerSize a).symm
        _ ≤ a * (headerSize / a) + a :=
            Nat.add_le_add_left (Nat.le_of_lt hma) _
        _ = headerSize / a * a + a := by rw [Nat.mul_comm]
  · rw [hval]
    by_cases hm : headerSize % a = 0
    · rw [if_pos hm, Nat.add_zero]
      exact Nat.lt_of_le_of_lt (Nat.div_mul_le_self _ _) (by omega)
    · rw [if_neg hm, Nat.add_mul, Nat.one_mul]
      have h1 : headerSize / a * a ≤ headerSize := Nat.div_mul_le_self _ _
      have h2 : headerSize / a * a ≠ headerSize := by
        intro he
        have hdm := Nat.div_add_mod headerSize a
        rw [Nat.mul_comm] at hdm
        omega
      omega
  · rw [hval]
    exact ⟨headerSize / a + if headerSize % a = 0 then 0 else 1,
      Nat.mul_comm _ _⟩

/-- Counterexample for C5 as stated: the size arithmetic of
`posix_memalign` (clean_malloc.c:329-333) is `size_t` arithmetic, so for
alignment 16 and size `2^64 − 8` the requested underlying size wraps to 8
— not the `roundUp(headerSize, 16) + s = 2^64 + 8` the claim asserts for
every size. -/
theorem posix_memalign_request_wraps_counterexample :
    roundUpHdr 16 = 16 ∧
    memalignUnderlyingSize 16 (2 ^ 64 - 8) = 8 ∧
    memalignUnderlyingSize 16 (2 ^ 64 - 8) ≠ roundUpHdr 16 + (2 ^ 64 - 8) := by
  refine ⟨by decide, by decide, by decide⟩

/-- C5 (amended): for power-of-two alignment `a` and size `s` with
`roundUp(headerSize, a) + s < 2^64` (no `size_t` wrap; for larger `s` the
request wraps modulo `2^64`), successful aligned allocation requests
`roundUp(headerSize, a) + s` bytes at alignment `a`, places the payload at
`blockStart + roundUp(headerSize, a)` (equivalently
`blockStart + allocatedSize − s`), stores the header under the payload
address, and the payload address is a multiple of `a` (given the real
primitive returned an `a`-aligned non-null block). -/
theorem posix_memalign_aligned_layout :
    ∀ (alignment sz realPtr oldVal : Nat) (s : HeapState),
      0 < alignment → alignment < W → (∃ k, alignment = 2 ^ k) →
      roundUpHdr alignment + sz < W →
      realPtr ≠ 0 → realPtr % alignment = 0 →
      memalignUnderlyingSize alignment sz = roundUpHdr alignment + sz ∧
      headerSize ≤ roundUpHdr alignment ∧
      roundUpHdr alignment < headerSize + alignment ∧
      alignment ∣ roundUpHdr alignment ∧
      (cleanPosixMemalign 0 realPtr alignment sz false oldVal s).1 = 0 ∧
      (cleanPosixMemalign 0 realPtr alignment sz false oldVal s).2.1 =
        realPtr + memalignUnderlyingSize alignment sz - sz ∧
      (cleanPosixMemalign 0 realPtr alignment sz false oldVal s).2.1 =
        realPtr + roundUpHdr alignment ∧
      (cleanPosixMemalign 0 realPtr alignment sz false oldVal s).2.2.headers
        (realPtr + roundUpHdr alignment) = some ⟨realPtr, sz⟩ ∧
      (cleanPosixMemalign 0 realPtr alignment sz false oldVal s).2.1 %
        alignment = 0 := by
  intro a sz rp ov s h0 haW hk hfit hrp hmod
  obtain ⟨hle, hlt, hdvd⟩ := roundUpHdr_spec a h0 haW hk
  have hUS : memalignUnderlyingSize a sz = roundUpHdr a + sz :=
    Nat.mod_eq_of_lt hfit
  have hne : ¬(a = 0 ∨ false = true) := by
    rintro (h | h)
    · omega
    · simp at h
  have heval : cleanPosixMemalign 0 rp a sz false ov s =
      (0, rp + memalignUnderlyingSize a sz - sz,
       { s with headers := fun q =>
          if q = rp + memalignUnderlyingSize a sz - sz then some ⟨rp, sz⟩
          else s.headers q }) := by
    unfold cleanPosixMemalign
    rw [if_neg hne, if_pos ⟨rfl, hrp⟩]
  have hpayload : rp + memalignUnderlyingSize a sz - sz =
      rp + roundUpHdr a := by
    rw [hUS]
    omega
  refine ⟨hUS, hle, hlt, hdvd, ?_, ?_, ?_, ?_, ?_⟩
  · rw [heval]
  · rw [heval]
  · rw [heval]
    exact hpayload
  · rw [heval]
    show (if rp + roundUpHdr a = rp + memalignUnderlyingSize a sz - sz
        then some (⟨rp, sz⟩ : AllocHeader)
        else s.headers (rp + roundUpHdr a)) = some ⟨rp, sz⟩
    rw [if_pos hpayload.symm]
  · rw [heval]
    show (rp + memalignUnderlyingSize a sz - sz) % a = 0
    rw [hpayload]
    obtain ⟨c, hc⟩ := hdvd
    obtain ⟨d, hd⟩ := Nat.dvd_of_mod_eq_zero hmod
    rw [hc, hd, ← Nat.mul_add]
    exact Nat.mul_mod_right a _

/-- Witness for C5 at alignment 32 (> headerSize), size 10, aligned real
block 64: the payload lands at `64 + roundUp(16, 32) = 96`, a multiple of
32, with the header stored under it. -/
theorem posix_memalign_aligned_layout_witness :
    (cleanPosixMemalign 0 64 32 10 false 7 initHeap).2.1 =
      64 + roundUpHdr 32 ∧
    (cleanPosixMemalign 0 64 32 10 false 7 initHeap).2.1 % 32 = 0 ∧
    (cleanPosixMemalign 0 64 32 10 false 7 initHeap).2.2.headers
      (64 + roundUpHdr 32) = some ⟨64, 10⟩ := by
  have h := posix_memalign_aligned_layout 32 10 64 7 initHeap (by decide)
    (by decide) ⟨5, by norm_num⟩ (by decide) (by decide) (by decide)
  exact ⟨h.2.2.2.2.2.2.1, h.2.2.2.2.2.2.2.2, h.2.2.2.2.2.2.2.1⟩

/-- Helper: `calloc` has the same header map as its inner `malloc`
(the extra `memset` only touches byte memory). -/
theorem cleanCalloc_headers_eq (r n k : Nat) (s : HeapState) :
    (cleanCalloc r n k s).2.headers =
      (cleanMalloc r (callocSize n k) s).2.headers := by
  simp only [cleanCalloc]
  split
  · rfl
  · rfl

/-- Helper: a successful `malloc` stores the header `⟨realRet, size⟩`
under the returned payload address. -/
theorem cleanMalloc_establish (r sz : Nat) (s : HeapState) (hr : r ≠ 0) :
    (cleanMalloc r sz s).2.headers ((cleanMalloc r sz s).1) = some ⟨r, sz⟩ := by
  rw [cleanMalloc_eval r sz s hr]
  show (if r + headerSize = r + headerSize then some (⟨r, sz⟩ : AllocHeader)
    else s.headers (r + headerSize)) = some ⟨r, sz⟩
  rw [if_pos rfl]

/-- Helper: evaluation of a successful `posix_memalign`. -/
theorem cleanPosixMemalign_eval_success (rp a sz ov : Nat) (s : HeapState)
    (ha : a ≠ 0) (hrp : rp ≠ 0) :
    cleanPosixMemalign 0 rp a sz false ov s =
      (0, rp + memalignUnderlyingSize a sz - sz,
       { s with headers := fun q =>
          if q = rp + memalignUnderlyingSize a sz - sz then some ⟨rp, sz⟩
          else s.headers q }) := by
  have hne : ¬(a = 0 ∨ false = true) := by
    rintro (h | h)
    · exact ha h
    · simp at h
  unfold cleanPosixMemalign
  rw [if_neg hne, if_pos ⟨rfl, hrp⟩]

/-- Helper: `posix_memalign` leaves every header entry other than its own
payload untouched. -/
theorem cleanPosixMemalign_headers_other (rc : Int) (rp a sz ov q : Nat)
    (nul : Bool) (s : HeapState)
    (hq : q ≠ rp + memalignUnderlyingSize a sz - sz) :
    (cleanPosixMemalign rc rp a sz nul ov s).2.2.headers q = s.headers q := by
  unfold cleanPosixMemalign
  by_cases h1 : a = 0 ∨ nul = true
  · rw [if_pos h1]
  · rw [if_neg h1]
    by_cases h2 : rc = 0 ∧ rp ≠ 0
    · rw [if_pos h2]
      show (if q = rp + memalignUnderlyingSize a sz - sz
          then some (⟨rp, sz⟩ : AllocHeader) else s.headers q) = s.headers q
      rw [if_neg hq]
    · rw [if_neg h2]

/-- Helper: `free` leaves every header entry other than the freed pointer
untouched (whenever the call is defined). -/
theorem cleanFree_headers_other (p q : Nat) (s : HeapState) (hq : q ≠ p) :
    (cleanFree p s).map (fun t => t.1.headers q) =
      (cleanFree p s).map (fun _ => s.headers q) := by
  by_cases hp : p = 0
  · subst hp
    rfl
  · cases hh : s.headers p with
    | none =>
        have he : cleanFree p s = none := by
          unfold cleanFree
          rw [if_neg hp, hh]
        rw [he]
        rfl
    | some h =>
        rw [cleanFree_eval p s h hp hh]
        show some (if q = p then none else s.headers q) = some (s.headers q)
        rw [if_neg hq]

/-- Helper: the heap with no allocations satisfies the header invariant. -/
theorem initHeap_inv : HeapInv initHeap := by
  intro q h' hq
  exact absurd hq (by simp [initHeap])

/-- Helper: `malloc` preserves the header invariant. -/
theorem cleanMalloc_inv (r sz : Nat) (s : HeapState) (hinv : HeapInv s) :
    HeapInv (cleanMalloc r sz s).2 := by
  intro q h' hq
  by_cases hr : r = 0
  · unfold cleanMalloc at hq
    rw [if_pos hr] at hq
    exact hinv q h' hq
  · rw [cleanMalloc_eval r sz s hr] at hq
    have hq' : (if q = r + headerSize then some (⟨r, sz⟩ : AllocHeader)
        else s.headers q) = some h' := hq
    by_cases hqe : q = r + headerSize
    · rw [if_pos hqe] at hq'
      have hh' := Option.some.inj hq'
      rw [← hh']
      exact hr
    · rw [if_neg hqe] at hq'
      exact hinv q h' hq'

/-- Helper: `calloc` preserves the header invariant. -/
theorem cleanCalloc_inv (r n k : Nat) (s : HeapState) (hinv : HeapInv s) :
    HeapInv (cleanCalloc r n k s).2 := by
  intro q h' hq
  rw [cleanCalloc_headers_eq] at hq
  exact cleanMalloc_inv r (callocSize n k) s hinv q h' hq

/-- Helper: `free` preserves the header invariant. -/
theorem cleanFree_inv (p : Nat) (s s' : HeapState) (fr : Option Nat)
    (hinv : HeapInv s) (he : cleanFree p s = some (s', fr)) : HeapInv s' := by
  by_cases hp : p = 0
  · subst hp
    have he' : some ((s, none) : HeapState × Option Nat) = some (s', fr) := he
    have h2 := Option.some.inj he'
    have h3 : s = s' := congrArg Prod.fst h2
    rw [← h3]
    exact hinv
  · cases hh : s.headers p with
    | none =>
        have hnone : cleanFree p s = none := by
          unfold cleanFree
          rw [if_neg hp, hh]
        rw [hnone] at he
        exact absurd he (by simp)
    | some h =>
        rw [cleanFree_eval p s h hp hh] at he
        have h2 := Option.some.inj he
        have h3 : _ = s' := congrArg Prod.fst h2
        intro q h' hq
        rw [← h3] at hq
        have hq' : (if q = p then none else s.headers q) = some h' := hq
        by_cases hqe : q = p
        · rw [if_pos hqe] at hq'
          exact absurd hq' (by simp)
        · rw [if_neg hqe] at hq'
          exact hinv q h' hq'

/-- Helper: `posix_memalign` preserves the header invariant. -/
theorem cleanPosixMemalign_inv (rc : Int) (rp a sz ov : Nat) (nul : Bool)
    (s : HeapState) (hinv : HeapInv s) :
    HeapInv (cleanPosixMemalign rc rp a sz nul ov s).2.2 := by
  intro q h' hq
  unfold cleanPosixMemalign at hq
  by_cases h1 : a = 0 ∨ nul = true
  · rw [if_pos h1] at hq
    exact hinv q h' hq
  · rw [if_neg h1] at hq
    by_cases h2 : rc = 0 ∧ rp ≠ 0
    · rw [if_pos h2] at hq
      have hq' : (if q = rp + memalignUnderlyingSize a sz - sz
          then some (⟨rp, sz⟩ : AllocHeader) else s.headers q) = some h' := hq
      by_cases hqe : q = rp + memalignUnderlyingSize a sz - sz
      · rw [if_pos hqe] at hq'
        have hh' := Option.some.inj hq'
        rw [← hh']
        exact h2.2
      · rw [if_neg hqe] at hq'
        exact hinv q h' hq'
    · rw [if_neg h2] at hq
      exact hinv q h' hq

/-- Helper: `realloc` preserves the header invariant. -/
theorem cleanRealloc_inv (r p sz : Nat) (s : HeapState)
    (t : Nat × HeapState × Option Nat) (hinv : HeapInv s)
    (he : cleanRealloc r p sz s = some t) : HeapInv t.2.1 := by
  simp only [cleanRealloc] at he
  split at he
  · have h1 := Option.some.inj he
    have h2 : _ = t.2.1 := congrArg (fun x => x.2.1) h1
    rw [← h2]
    exact cleanMalloc_inv r sz s hinv
  · split at he
    · exact Option.noConfusion he
    · rename_i h hh
      split at he
      · exact Option.noConfusion he
      · rename_i s3 fr hfree
        have h1 := Option.some.inj he
        have h2 : s3 = t.2.1 := congrArg (fun x => x.2.1) h1
        rw [← h2]
        refine cleanFree_inv p _ s3 fr ?_ hfree
        intro q h' hq
        apply cleanMalloc_inv r sz s hinv q h'
        split at hq
        · exact hq
        · exact hq

/-- Helper: one entry-point call preserves the header invariant. -/
theorem runOp_inv (op : HeapOp) (s s' : HeapState) (hinv : HeapInv s)
    (he : runOp op s = some s') : HeapInv s' := by
  cases op with
  | mallocOp r sz =>
      have h1 := Option.some.inj he
      rw [← h1]
      exact cleanMalloc_inv r sz s hinv
  | callocOp r n k =>
      have h1 := Option.some.inj he
      rw [← h1]
      exact cleanCalloc_inv r n k s hinv
  | freeOp p =>
      cases hf : cleanFree p s with
      | none =>
          have he' : Option.map (fun t => t.1) (cleanFree p s) = some s' := he
          rw [hf] at he'
          exact Option.noConfusion he'
      | some u =>
          have he' : Option.map (fun t => t.1) (cleanFree p s) = some s' := he
          rw [hf] at he'
          have h1 : u.1 = s' := Option.some.inj he'
          rw [← h1]
          exact cleanFree_inv p s u.1 u.2 hinv (by rw [hf])
  | reallocOp r p sz =>
      cases hf : cleanRealloc r p sz s with
      | none =>
          have he' : Option.map (fun t => t.2.1) (cleanRealloc r p sz s) =
              some s' := he
          rw [hf] at he'
          exact Option.noConfusion he'
      | some t =>
          have he' : Option.map (fun t => t.2.1) (cleanRealloc r p sz s) =
              some s' := he
          rw [hf] at he'
          have h1 : t.2.1 = s' := Option.some.inj he'
          rw [← h1]
          exact cleanRealloc_inv r p sz s t hinv hf
  | memalignOp rc rp a sz ov nul =>
      have h1 := Option.some.inj he
      rw [← h1]
      exact cleanPosixMemalign_inv rc rp a sz ov nul s hinv

/-- Helper: every state reachable by a sequence of entry-point calls from
an invariant-satisfying state satisfies the header invariant. -/
theorem runOps_inv : ∀ (l : List HeapOp) (s s' : HeapState), HeapInv s →
    runOps l s = some s' → HeapInv s' := by
  intro l
  induction l with
  | nil =>
      intro s s' hinv he
      have h1 : s = s' := Option.some.inj he
      rw [← h1]
      exact hinv
  | cons op rest ih =>
      intro s s' hinv he
      cases ho : runOp op s with
      | none =>
          have he' : (match runOp op s with
              | none => none
              | some s1 => runOps rest s1) = some s' := he
          rw [ho] at he'
          exact Option.noConfusion he'
      | some s1 =>
          have he' : (match runOp op s with
              | none => none
              | some s1 => runOps rest s1) = some s' := he
          rw [ho] at he'
          exact ih s1 s' (runOp_inv op s s1 hinv ho) he'

/-- C8: every non-null pointer returned by an allocation entry point
(plain, array, aligned or reallocation) carries, right before its payload,
a header whose `underlyingPointer` is the non-null real block and whose
`requestedSize` is the size forwarded to the allocation in that call; each
entry point touches no other pointer's header (under the real allocator's
freshness guarantees), and along every defined call sequence from the
empty heap all live headers keep a non-null `underlyingPointer`. -/
theorem header_invariant :
    (∀ (r sz : Nat) (s : HeapState), (cleanMalloc r sz s).1 ≠ 0 →
      ∃ h', (cleanMalloc r sz s).2.headers ((cleanMalloc r sz s).1) =
          some h' ∧ h'.ptr ≠ 0 ∧ h'.requested_size = sz) ∧
    (∀ (r n k : Nat) (s : HeapState), (cleanCalloc r n k s).1 ≠ 0 →
      ∃ h', (cleanCalloc r n k s).2.headers ((cleanCalloc r n k s).1) =
          some h' ∧ h'.ptr ≠ 0 ∧ h'.requested_size = callocSize n k) ∧
    (∀ (rp a sz ov : Nat) (s : HeapState), a ≠ 0 → rp ≠ 0 →
      ∃ h', (cleanPosixMemalign 0 rp a sz false ov s).2.2.headers
          ((cleanPosixMemalign 0 rp a sz false ov s).2.1) = some h' ∧
        h'.ptr ≠ 0 ∧ h'.requested_size = sz) ∧
    (∀ (r sz : Nat) (s : HeapState), r ≠ 0 →
      (cleanRealloc r 0 sz s).map (fun t => t.2.1.headers t.1) =
        some (some ⟨r, sz⟩)) ∧
    (∀ (r p sz : Nat) (s : HeapState) (h : AllocHeader), r ≠ 0 → p ≠ 0 →
      r + headerSize ≠ p → s.headers p = some h →
      (cleanRealloc r p sz s).map (fun t => t.2.1.headers t.1) =
        some (some ⟨r, sz⟩)) ∧
    (∀ (r sz q : Nat) (s : HeapState), q ≠ r + headerSize →
      (cleanMalloc r sz s).2.headers q = s.headers q) ∧
    (∀ (r n k q : Nat) (s : HeapState), q ≠ r + headerSize →
      (cleanCalloc r n k s).2.headers q = s.headers q) ∧
    (∀ (p q : Nat) (s : HeapState), q ≠ p →
      (cleanFree p s).map (fun t => t.1.headers q) =
        (cleanFree p s).map (fun _ => s.headers q)) ∧
    (∀ (rc : Int) (rp a sz ov q : Nat) (nul : Bool) (s : HeapState),
      q ≠ rp + memalignUnderlyingSize a sz - sz →
      (cleanPosixMemalign rc rp a sz nul ov s).2.2.headers q = s.headers q) ∧
    (∀ (r p sz q : Nat) (s : HeapState) (h : AllocHeader), r ≠ 0 → p ≠ 0 →
      r + headerSize ≠ p → s.headers p = some h →
      q ≠ r + headerSize → q ≠ p →
      (cleanRealloc r p sz s).map (fun t => t.2.1.headers q) =
        some (s.headers q)) ∧
    (∀ (l : List HeapOp) (s' : HeapState), runOps l initHeap = some s' →
      HeapInv s') := by
  refine ⟨?_, ?_, ?_, ?_, ?_, ?_, ?_, ?_, ?_, ?_, ?_⟩
  · intro r sz s hne
    have hr : r ≠ 0 := by
      intro h0
      apply hne
      rw [h0]
      rfl
    exact ⟨⟨r, sz⟩, cleanMalloc_establish r sz s hr, hr, rfl⟩
  · intro r n k s hne
    have hne' : (cleanMalloc r (callocSize n k) s).1 ≠ 0 := by
      rw [← cleanCalloc_fst]
      exact hne
    have hr : r ≠ 0 := by
      intro h0
      apply hne'
      rw [h0]
      rfl
    refine ⟨⟨r, callocSize n k⟩, ?_, hr, rfl⟩
    rw [cleanCalloc_headers_eq, cleanCalloc_fst]
    exact cleanMalloc_establish r (callocSize n k) s hr
  · intro rp a sz ov s ha hrp
    rw [cleanPosixMemalign_eval_success rp a sz ov s ha hrp]
    refine ⟨⟨rp, sz⟩, ?_, hrp, rfl⟩
    show (if rp + memalignUnderlyingSize a sz - sz =
        rp + memalignUnderlyingSize a sz - sz
      then some (⟨rp, sz⟩ : AllocHeader)
      else s.headers (rp + memalignUnderlyingSize a sz - sz)) = some ⟨rp, sz⟩
    rw [if_pos rfl]
  · intro r sz s hr
    show some ((cleanMalloc r sz s).2.headers ((cleanMalloc r sz s).1)) =
      some (some ⟨r, sz⟩)
    rw [cleanMalloc_establish r sz s hr]
  · intro r p sz s h hr hp hnp hh
    rw [cleanRealloc_eval_success r p sz s h hr hp hnp hh]
    show some (if r + headerSize = p then none
        else if r + headerSize = r + headerSize
          then some (⟨r, sz⟩ : AllocHeader)
          else s.headers (r + headerSize)) = some (some ⟨r, sz⟩)
    rw [if_neg hnp, if_pos rfl]
  · intro r sz q s hq
    exact cleanMalloc_headers_other r sz q s hq
  · intro r n k q s hq
    rw [cleanCalloc_headers_eq]
    exact cleanMalloc_headers_other r (callocSize n k) q s hq
  · intro p q s hq
    exact cleanFree_headers_other p q s hq
  · intro rc rp a sz ov q nul s hq
    exact cleanPosixMemalign_headers_other rc rp a sz ov q nul s hq
  · intro r p sz q s h hr hp hnp hh hq1 hq2
    rw [cleanRealloc_eval_success r p sz s h hr hp hnp hh]
    show some (if q = p then none
        else if q = r + headerSize then some (⟨r, sz⟩ : AllocHeader)
        else s.headers q) = some (s.headers q)
    rw [if_neg hq2, if_neg hq1]
  · intro l s' he
    exact runOps_inv l initHeap s' initHeap_inv he

/-- Witness for C8: a `malloc` with real block 100 and size 5 establishes
a valid header at payload 116; a `realloc` of the live pointer 116 of
`exLiveState` (fresh block 200, new size 4) establishes the header
`⟨200, 4⟩` at the new payload; and after the trace `[malloc 100 5]` the
invariant instantiated at payload 116 gives a non-null underlying
pointer. -/
theorem header_invariant_witness :
    (∃ h', (cleanMalloc 100 5 initHeap).2.headers
        ((cleanMalloc 100 5 initHeap).1) = some h' ∧
      h'.ptr ≠ 0 ∧ h'.requested_size = 5) ∧
    (cleanRealloc 200 116 4 exLiveState).map (fun t => t.2.1.headers t.1) =
      some (some ⟨200, 4⟩) ∧
    AllocHeader.ptr ⟨100, 5⟩ ≠ 0 := by
  refine ⟨?_, ?_, ?_⟩
  · exact header_invariant.1 100 5 initHeap (by decide)
  · exact header_invariant.2.2.2.2.1 200 116 4 exLiveState ⟨100, 8⟩
      (by decide) (by decide) (by decide) rfl
  · exact header_invariant.2.2.2.2.2.2.2.2.2.2 [HeapOp.mallocOp 100 5]
      ((cleanMalloc 100 5 initHeap).2) rfl 116 ⟨100, 5⟩ rfl
